import Mathlib

/-!
Verification of the TORCS SCR client library (snakeoil3_gym.py).

This file gives a shallow embedding of the client's core: the wire codec
(ServerState.parse_server_str / destringify and DriverAction.__repr__),
the actuator clamping gate (DriverAction.clip_to_limits and clip), the
receive/send/shutdown session operations of Client, and the retry counter
of Client.setup_connection.  Python strings are modelled as List Char,
Python floats as rationals (ℚ), Python dicts as insertion-ordered
association lists, and raised exceptions as Option / explicit error
results.  Numeric values are always built with mkRat and integer
arithmetic so that every definition evaluates by kernel reduction.
-/

namespace Snakeoil

/-! ### Python string primitives modelled on List Char -/

/-- Drop the longest suffix of characters satisfying p (the right-hand
half of Python str.strip / str.rstrip). -/
def dropRightWhileL (p : Char → Bool) (l : List Char) : List Char :=
  (l.reverse.dropWhile p).reverse

/-- Models Python str.strip(): remove leading and trailing whitespace. -/
def pyStrip (l : List Char) : List Char :=
  dropRightWhileL Char.isWhitespace (l.dropWhile Char.isWhitespace)

/-- Models the Python substring test needle in hay. -/
def pySubstr (needle : List Char) : List Char → Bool
  | [] => needle.isEmpty
  | c :: rest => needle.isPrefixOf (c :: rest) || pySubstr needle rest

/-- String-level wrapper for the Python substring test. -/
def pyIn (needle hay : String) : Bool := pySubstr needle.data hay.data

/-- Fuel-driven worker for pySplit; the fuel is an upper bound on the
length of the list being split, so the fuel-exhausted branch is
unreachable when called through pySplit. -/
def pySplitF (sep : List Char) : Nat → List Char → List (List Char)
  | _, [] => [[]]
  | 0, l => [l]
  | fuel + 1, c :: rest =>
    if sep.isPrefixOf (c :: rest) && !sep.isEmpty then
      [] :: pySplitF sep fuel ((c :: rest).drop sep.length)
    else
      match pySplitF sep fuel rest with
      | [] => [[c]]
      | p :: ps => (c :: p) :: ps

/-- Models Python str.split(sep) for an explicit non-empty separator:
scan left to right, cutting at each non-overlapping occurrence of sep
and keeping empty parts. -/
def pySplit (sep l : List Char) : List (List Char) :=
  pySplitF sep l.length l

/-! ### The value domain of the wire codec -/

/-- A scalar wire value: a number coerced by float(), or the raw token
kept verbatim when the coercion fails (lenient decode). -/
inductive PyScalar where
  | num (q : ℚ)
  | str (s : String)
deriving DecidableEq

/-- A decoded sensor value: a scalar or an ordered sequence of scalars.
destringify only ever produces values of this shape, because its input
is a flat list of whitespace-separated tokens. -/
inductive PyVal where
  | scalar (v : PyScalar)
  | vlist (xs : List PyScalar)
deriving DecidableEq

/-- Numeric value of a list of decimal digit characters. -/
def tokVal (cs : List Char) : Nat :=
  cs.foldl (fun a c => a * 10 + (c.toNat - 48)) 0

/-- Exponent part of a float literal: consumes an optional sign and a
non-empty run of digits, and scales the mantissa num/den by 10^e.
Powers are applied to the numerator or denominator with integer
arithmetic so the result stays kernel-reducible. -/
def pyFloatExp (num : Int) (den : Nat) (er : List Char) : Option ℚ :=
  let (epos, ed) :=
    match er with
    | '+' :: r => (true, r)
    | '-' :: r => (false, r)
    | r => (true, r)
  let digs := ed.takeWhile Char.isDigit
  if digs.isEmpty || !(ed.dropWhile Char.isDigit).isEmpty then none
  else if epos then some (mkRat (num * (10 : Int) ^ tokVal digs) den)
  else some (mkRat num (den * 10 ^ tokVal digs))

/-- Models the Python builtin float() on finite decimal literals:
optional surrounding whitespace, optional sign, then digits with an
optional fractional part and an optional exponent.  The non-finite
spellings inf and nan have no rational counterpart and are rejected
(the codec then keeps the raw token as a string). -/
def pyFloat? (s : List Char) : Option ℚ :=
  let body := pyStrip s
  let (sgn, rest) :=
    match body with
    | '+' :: r => ((1 : Int), r)
    | '-' :: r => ((-1 : Int), r)
    | r => ((1 : Int), r)
  let ip := rest.takeWhile Char.isDigit
  let afterInt := rest.dropWhile Char.isDigit
  match afterInt with
  | [] => if ip.isEmpty then none else some (mkRat (sgn * tokVal ip) 1)
  | '.' :: r =>
    let fp := r.takeWhile Char.isDigit
    let afterFrac := r.dropWhile Char.isDigit
    if ip.isEmpty && fp.isEmpty then none
    else
      let num : Int := sgn * (tokVal ip * 10 ^ fp.length + tokVal fp)
      let den : Nat := 10 ^ fp.length
      match afterFrac with
      | [] => some (mkRat num den)
      | 'e' :: er => pyFloatExp num den er
      | 'E' :: er => pyFloatExp num den er
      | _ => none
  | 'e' :: er => if ip.isEmpty then none else pyFloatExp (sgn * tokVal ip) 1 er
  | 'E' :: er => if ip.isEmpty then none else pyFloatExp (sgn * tokVal ip) 1 er
  | _ => none

/-- Coercion of one wire token, as destringify does it on a single
string: try float(), and on failure keep the token (the empty token is
returned unchanged as well, by the not-s guard). -/
def destrTok (t : List Char) : PyScalar :=
  if t.isEmpty then .str (String.mk t)
  else
    match pyFloat? t with
    | some q => .num q
    | none => .str (String.mk t)

/-- Models destringify applied to the token list w[1:] of one group: an
empty list stays an empty list, a single token collapses to a scalar,
and two or more tokens give the ordered list of coerced tokens. -/
def destringify : List (List Char) → PyVal
  | [] => .vlist []
  | [t] => .scalar (destrTok t)
  | ts => .vlist (ts.map destrTok)

/-! ### The sensor dictionary (Python dict semantics) -/

/-- Insertion-ordered association list modelling the Python dict
ServerState.d. -/
abbrev Dict := List (String × PyVal)

/-- Models d[k] = v on a Python dict: overwrite the existing entry in
place, or append a new one. -/
def dictInsert (d : Dict) (k : String) (v : PyVal) : Dict :=
  if d.any (fun p => p.1 == k) then
    d.map (fun p => if p.1 == k then (k, v) else p)
  else d ++ [(k, v)]

/-- Models d[k] lookup on a Python dict, None when the key is absent. -/
def dictGet? (d : Dict) (k : String) : Option PyVal :=
  (d.find? (fun p => p.1 == k)).map (fun p => p.2)

/-- The key/value pairs of one telemetry datagram, in datagram order:
strip, drop the trailing delimiter character, strip the outer
parentheses, split into groups on the two-character separator, then
split each group on single spaces; the first token is the key and the
rest feed destringify. -/
def groupPairs (serverString : String) : List (String × PyVal) :=
  let servstr := (pyStrip serverString.data).dropLast
  let body := dropRightWhileL (fun c => c = ')') ((pyStrip servstr).dropWhile (fun c => c = '('))
  (pySplit [')', '('] body).map fun i =>
    let w := pySplit [' '] i
    (String.mk (w.headD []), destringify (w.drop 1))

/-- Models ServerState.parse_server_str: each group of the datagram is
assigned into the existing dictionary self.d, which is never cleared
first. -/
def parse_server_str (d : Dict) (serverString : String) : Dict :=
  (groupPairs serverString).foldl (fun d p => dictInsert d p.1 p.2) d

/-- The keys mentioned by one datagram, in order. -/
def serverKeys (s : String) : List String :=
  (groupPairs s).map (fun p => p.1)

/-! ### The actuator command and its clamping gate -/

/-- The focus field of a DriverAction: the reachable values are a
number (after a reset) or a list of numbers. -/
inductive Focus where
  | scalar (v : ℚ)
  | flist (xs : List ℚ)
deriving DecidableEq

/-- Models the DriverAction data dictionary self.d, with its fixed key
set, under the claims' assumption that all control fields are numeric.
Field order is the order of the dict literal in DriverAction.__init__. -/
structure DriverAction where
  accel : ℚ
  brake : ℚ
  clutch : ℚ
  gear : ℚ
  steer : ℚ
  focus : Focus
  meta : ℚ
deriving DecidableEq

/-- Models the module-level clip utility. -/
def clip (v lo hi : ℚ) : ℚ :=
  if v < lo then lo else if v > hi then hi else v

/-- The admissible gear values tested by clip_to_limits. -/
def gearVals : List ℚ := [-1, 0, 1, 2, 3, 4, 5, 6]

/-- The admissible meta values tested by clip_to_limits. -/
def metaVals : List ℚ := [0, 1]

/-- Models DriverAction.clip_to_limits.  The source mutates self.d in
place; here the clamped command is returned.  Python's min() and max()
on a list are left folds of the binary operations over head and tail,
and raise ValueError on an empty list, which is the none outcome (the
focus test short-circuits: a non-list focus is reset to 0 before min is
ever evaluated). -/
def clip_to_limits (a : DriverAction) : Option DriverAction :=
  let steer := clip a.steer (-1) 1
  let brake := clip a.brake 0 1
  let accel := clip a.accel 0 1
  let clutch := clip a.clutch 0 1
  let gear := if a.gear ∈ gearVals then a.gear else 0
  let meta := if a.meta ∈ metaVals then a.meta else 0
  match a.focus with
  | .scalar _ => some ⟨accel, brake, clutch, gear, steer, .scalar 0, meta⟩
  | .flist [] => none
  | .flist (x :: xs) =>
    some ⟨accel, brake, clutch, gear, steer,
      if xs.foldl min x < -180 ∨ xs.foldl max x > 180 then .scalar 0
      else .flist (x :: xs), meta⟩

/-- Models the defaults of DriverAction.__init__ (accel is 0.2). -/
def driverActionInit : DriverAction :=
  ⟨mkRat 1 5, 0, 0, 1, 0, .flist [-90, -45, 0, 45, 90], 0⟩

/-! ### The action encoder (DriverAction.__repr__) -/

/-- Decimal digit characters of a natural number, most significant
first, with the fuel bounding the recursion depth; any fuel at least n
is adequate. -/
def natDigitsF : Nat → Nat → List Char
  | 0, n => [Nat.digitChar n]
  | fuel + 1, n =>
    if n < 10 then [Nat.digitChar n]
    else natDigitsF fuel (n / 10) ++ [Nat.digitChar (n % 10)]

/-- Decimal digit characters of a natural number. -/
def natDigits (n : Nat) : List Char := natDigitsF n n

/-- Exactly three decimal digit characters for a remainder below 1000,
with leading zeros. -/
def pad3 (m : Nat) : List Char :=
  [Nat.digitChar (m / 100 % 10), Nat.digitChar (m / 10 % 10), Nat.digitChar (m % 10)]

/-- Models the format '%.3f' applied to a numeric value: the value
scaled by 1000 and rounded to the nearest integer (the floor division
computes round-half-up; the tie behaviour of binary doubles is below
the resolution of this rational model), then sign, integer digits, a
point and exactly three fractional digits. -/
def format3 (q : ℚ) : String :=
  let n : Int := Int.fdiv (2 * q.num * 1000 + q.den) (2 * q.den)
  String.mk ((if n < 0 then ['-'] else []) ++
    natDigits (n.natAbs / 1000) ++ '.' :: pad3 (n.natAbs % 1000))

/-- Long-division digits of a proper fraction n/d, fuel-bounded. -/
def fracDigitChars : Nat → Nat → Nat → List Char
  | 0, _, _ => []
  | _, 0, _ => []
  | fuel + 1, n, d => Nat.digitChar (n * 10 / d) :: fracDigitChars fuel (n * 10 % d) d

/-- Models Python unicode() applied to a numeric focus entry.  A
rational with denominator 1 prints as an integer; otherwise its decimal
expansion is emitted (Python's shortest float repr is approximated by
up to twenty long-division digits; no claim constrains this text). -/
def pyNumStr (q : ℚ) : String :=
  String.mk ((if q.num < 0 then ['-'] else []) ++
    natDigits (q.num.natAbs / q.den) ++
    (if q.num.natAbs % q.den = 0 then []
     else '.' :: fracDigitChars 20 (q.num.natAbs % q.den) q.den))

/-- Models the single-space str.join of the focus list rendering. -/
def joinSpace : List (List Char) → List Char
  | [] => []
  | [x] => x
  | x :: rest => x ++ ' ' :: joinSpace rest

/-- Rendering of the focus value inside __repr__: a non-list value goes
through '%.3f', a list is the space-joined unicode() of its entries. -/
def focusStr : Focus → String
  | .scalar v => format3 v
  | .flist xs => String.mk (joinSpace (xs.map (fun x => (pyNumStr x).data)))

/-- One wire group (key value...), as built by __repr__. -/
def wireGroup (k body : String) : String :=
  "(" ++ k ++ " " ++ body ++ ")"

/-- The string __repr__ builds once clipping has succeeded,
concatenating the seven groups with no separators.  The iteration order
over the Python dict is unspecified by the source; the dict-literal
key order is fixed here as the implementation choice (no claim depends
on the order). -/
def encodeClamped (b : DriverAction) : String :=
  wireGroup "accel" (format3 b.accel) ++
  wireGroup "brake" (format3 b.brake) ++
  wireGroup "clutch" (format3 b.clutch) ++
  wireGroup "gear" (format3 b.gear) ++
  wireGroup "steer" (format3 b.steer) ++
  wireGroup "focus" (focusStr b.focus) ++
  wireGroup "meta" (format3 b.meta)

/-- Models DriverAction.__repr__: clip_to_limits runs first (a mandatory
gate), and its ValueError on an empty focus list propagates as none. -/
def driver_repr (a : DriverAction) : Option String :=
  (clip_to_limits a).map encodeClamped

/-! ### The client session state machine -/

/-- The session state a Client carries between calls: whether the UDP
socket self.so is still open, and the sensor dictionary self.S.d. -/
structure ClientState where
  soOpen : Bool
  S : Dict
deriving DecidableEq

/-- Outcome of one get_servers_input call.  The Python method returns
None on every path; the constructors record which path ran: noSocket is
the silent early return on a closed session, snapshot is the break
after parsing a telemetry datagram, shutdownRace and restartRace are
the terminal server signals, keyError is the KeyError raised when the
shutdown report reads a racePos that was never decoded, typeError is
the TypeError raised when the report formats a decoded racePos that is
not a number with the integer conversion, and pending stands for a
loop iteration with no further modelled datagrams. -/
inductive RecvResult where
  | noSocket
  | snapshot
  | shutdownRace (pos : PyVal)
  | restartRace
  | keyError
  | typeError
  | pending
deriving DecidableEq

/-- Does the receive outcome correspond to a raised Python exception? -/
def RecvResult.isRaise : RecvResult → Bool
  | .keyError => true
  | .typeError => true
  | _ => false

/-- Models Client.shutdown: close the socket only if it is open (the
second call is a no-op). -/
def shutdown (c : ClientState) : ClientState :=
  if c.soOpen then { c with soOpen := false } else c

/-- The receive loop body of Client.get_servers_input over a finite
list of socket events (some s is a received datagram, none is a
socket timeout, on which sockdata keeps its previous value and the
classification runs again, printing a dot).  The identification marker
is checked before the shutdown marker.  The shutdown report formats
self.S.d['racePos'] with the integer conversion before Client.shutdown
is invoked: a missing key raises KeyError, a decoded value that is not
a number (a string token or a list) raises TypeError from the
conversion, and only a numeric value reaches the shutdown call.  An
undistinguished non-empty datagram is parsed into self.S and ends the
loop. -/
def recvLoop (c : ClientState) (sockdata : String) : List (Option String) → ClientState × RecvResult
  | [] => (c, .pending)
  | m :: rest =>
    let sockdata := m.getD sockdata
    if pyIn "***identified***" sockdata then recvLoop c sockdata rest
    else if pyIn "***shutdown***" sockdata then
      match dictGet? c.S "racePos" with
      | some (PyVal.scalar (.num q)) => (shutdown c, .shutdownRace (PyVal.scalar (.num q)))
      | some _ => (c, .typeError)
      | none => (c, .keyError)
    else if pyIn "***restart***" sockdata then (shutdown c, .restartRace)
    else if sockdata = "" then recvLoop c sockdata rest
    else ({ c with S := parse_server_str c.S sockdata }, .snapshot)

/-- Models Client.get_servers_input: a closed session returns at once
(noSocket), otherwise the loop starts with sockdata initialised to the
empty string. -/
def get_servers_input (c : ClientState) (msgs : List (Option String)) : ClientState × RecvResult :=
  if c.soOpen then recvLoop c "" msgs else (c, .noSocket)

/-- Outcome of one respond_to_server call: noSocket is the silent early
return on a closed session, sent carries the encoded datagram handed to
sendto, valueError is the ValueError propagating out of repr(self.R)
when clipping fails. -/
inductive SendResult where
  | noSocket
  | sent (msg : String)
  | valueError
deriving DecidableEq

/-- Does the send outcome correspond to a raised Python exception? -/
def SendResult.isRaise : SendResult → Bool
  | .valueError => true
  | _ => false

/-- Models Client.respond_to_server: a closed session returns at once,
otherwise repr(self.R) is built and sent (socket-level send errors exit
the process and are outside this model). -/
def respond_to_server (c : ClientState) (r : DriverAction) : ClientState × SendResult :=
  if c.soOpen then
    match driver_repr r with
    | some msg => (c, .sent msg)
    | none => (c, .valueError)
  else (c, .noSocket)

/-! ### The handshake retry counter of Client.setup_connection -/

/-- The retry bookkeeping of the setup_connection loop: the n_fail
counter and how many times the external restart capability (pkill
torcs, relaunch, autostart script) has been invoked. -/
structure HandshakeState where
  n_fail : Int
  restarts : Nat
deriving DecidableEq

/-- Models the socket-timeout branch of the setup_connection loop: if
n_fail is already negative the simulator is relaunched and n_fail is
set back to 5, and in every case n_fail is then decremented. -/
def handshakeTimeoutStep (st : HandshakeState) : HandshakeState :=
  let st' := if st.n_fail < 0 then { n_fail := 5, restarts := st.restarts + 1 } else st
  { st' with n_fail := st'.n_fail - 1 }

/-- The handshake bookkeeping after k consecutive receive timeouts,
starting from the initial budget n_fail = 5 with no restart issued. -/
def handshakeRun : Nat → HandshakeState
  | 0 => ⟨5, 0⟩
  | k + 1 => handshakeTimeoutStep (handshakeRun k)

/-! ### Auxiliary predicates and concrete test vectors -/

/-- A rendered number has exactly three digits after the decimal point:
the string splits at a point character into a prefix free of points and
exactly three trailing digit characters. -/
def threeDecimals (s : String) : Prop :=
  ∃ pre ds, s.data = pre ++ '.' :: ds ∧ ds.length = 3 ∧
    (∀ c ∈ ds, c.isDigit = true) ∧ (∀ c ∈ pre, c ≠ '.')

/-- The out-of-range command of the specification's test vector:
steer 2.5, brake -1, accel 0.5, clutch 0, gear 9, meta 5,
focus [0, 0, 0, 0, 0]. -/
def specClampInput : DriverAction :=
  ⟨mkRat 1 2, -1, 0, 9, mkRat 5 2, .flist [0, 0, 0, 0, 0], 5⟩

/-- The clamped form of specClampInput: steer 1, brake 0, accel 0.5,
clutch 0, gear 0, meta 0, focus unchanged. -/
def specClampOutput : DriverAction :=
  ⟨mkRat 1 2, 0, 0, 0, 1, .flist [0, 0, 0, 0, 0], 0⟩

end Snakeoil

namespace Snakeoil

/-! ### Helper lemmas -/

theorem clip_le (v lo hi : ℚ) (h : lo ≤ hi) :
    lo ≤ clip v lo hi ∧ clip v lo hi ≤ hi := by
  unfold clip
  split_ifs with h1 h2
  · exact ⟨le_refl _, h⟩
  · exact ⟨h, le_refl _⟩
  · exact ⟨not_lt.mp h1, not_lt.mp h2⟩

theorem clip_idem (v lo hi : ℚ) (h : lo ≤ hi) :
    clip (clip v lo hi) lo hi = clip v lo hi := by
  unfold clip
  split_ifs <;> first | rfl | linarith

theorem foldl_min_le (l : List ℚ) (x : ℚ) : ∀ y ∈ x :: l, l.foldl min x ≤ y := by
  induction l generalizing x with
  | nil =>
    intro y hy
    simp only [List.mem_singleton] at hy
    simp [hy]
  | cons z l ih =>
    intro y hy
    have hbase : l.foldl min (min x z) ≤ min x z := ih (min x z) (min x z) (by simp)
    simp only [List.foldl_cons]
    rcases List.mem_cons.mp hy with rfl | hy2
    · exact le_trans hbase (min_le_left _ _)
    rcases List.mem_cons.mp hy2 with rfl | hy3
    · exact le_trans hbase (min_le_right _ _)
    · exact ih (min x z) y (List.mem_cons_of_mem _ hy3)

theorem le_foldl_max (l : List ℚ) (x : ℚ) : ∀ y ∈ x :: l, y ≤ l.foldl max x := by
  induction l generalizing x with
  | nil =>
    intro y hy
    simp only [List.mem_singleton] at hy
    simp [hy]
  | cons z l ih =>
    intro y hy
    have hbase : max x z ≤ l.foldl max (max x z) := ih (max x z) (max x z) (by simp)
    simp only [List.foldl_cons]
    rcases List.mem_cons.mp hy with rfl | hy2
    · exact le_trans (le_max_left _ _) hbase
    rcases List.mem_cons.mp hy2 with rfl | hy3
    · exact le_trans (le_max_right _ _) hbase
    · exact ih (max x z) y (List.mem_cons_of_mem _ hy3)

theorem digitChar_isDigit (m : Nat) (h : m < 10) : (Nat.digitChar m).isDigit = true := by
  interval_cases m <;> decide

theorem natDigitsF_digits (fuel : Nat) :
    ∀ n, n ≤ fuel → ∀ c ∈ natDigitsF fuel n, c.isDigit = true := by
  induction fuel with
  | zero =>
    intro n hn c hc
    interval_cases n
    simp only [natDigitsF, List.mem_singleton] at hc
    subst hc
    decide
  | succ fuel ih =>
    intro n hn c hc
    by_cases h10 : n < 10
    · simp only [natDigitsF, if_pos h10, List.mem_singleton] at hc
      subst hc
      exact digitChar_isDigit n h10
    · simp only [natDigitsF, if_neg h10, List.mem_append, List.mem_singleton] at hc
      rcases hc with hc | hc
      · have hdiv : n / 10 < n := Nat.div_lt_self (by omega) (by norm_num)
        exact ih (n / 10) (by omega) c hc
      · subst hc
        exact digitChar_isDigit (n % 10) (Nat.mod_lt _ (by norm_num))

theorem natDigits_digits (n : Nat) : ∀ c ∈ natDigits n, c.isDigit = true :=
  natDigitsF_digits n n (le_refl n)

theorem pad3_digits (m : Nat) : ∀ c ∈ pad3 m, c.isDigit = true := by
  intro c hc
  simp only [pad3, List.mem_cons, List.mem_singleton, List.not_mem_nil, or_false] at hc
  rcases hc with rfl | rfl | rfl
  · exact digitChar_isDigit _ (Nat.mod_lt _ (by norm_num))
  · exact digitChar_isDigit _ (Nat.mod_lt _ (by norm_num))
  · exact digitChar_isDigit _ (Nat.mod_lt _ (by norm_num))

theorem format3_threeDecimals (q : ℚ) : threeDecimals (format3 q) := by
  unfold format3 threeDecimals
  refine ⟨(if Int.fdiv (2 * q.num * 1000 + q.den) (2 * q.den) < 0 then ['-'] else []) ++
      natDigits ((Int.fdiv (2 * q.num * 1000 + q.den) (2 * q.den)).natAbs / 1000),
    pad3 ((Int.fdiv (2 * q.num * 1000 + q.den) (2 * q.den)).natAbs % 1000),
    by simp, rfl, pad3_digits _, ?_⟩
  intro c hc
  simp only [List.mem_append] at hc
  rcases hc with hc | hc
  · split_ifs at hc with hneg
    · simp only [List.mem_singleton] at hc
      subst hc
      decide
    · simp at hc
  · intro hdot
    have := natDigits_digits _ c hc
    rw [hdot] at this
    simp at this

end Snakeoil

namespace Snakeoil

/-! ### Dictionary lemmas -/

theorem find?_map_fix (d : Dict) (k k' : String) (v : PyVal) (hne : k' ≠ k) :
    (d.map (fun p => if p.1 == k then (k, v) else p)).find? (fun p => p.1 == k') =
      d.find? (fun p => p.1 == k') := by
  induction d with
  | nil => rfl
  | cons a d ih =>
    simp only [List.map_cons]
    by_cases ha : a.1 = k
    · rw [if_pos (by simp [ha])]
      rw [List.find?_cons_of_neg _ (by simp [beq_iff_eq]; exact fun h => hne h.symm)]
      rw [List.find?_cons_of_neg _ (by simp [beq_iff_eq, ha]; exact fun h => hne h.symm)]
      exact ih
    · rw [if_neg (by simp [ha])]
      by_cases hk' : a.1 = k'
      · rw [List.find?_cons_of_pos _ (by simp [hk']), List.find?_cons_of_pos _ (by simp [hk'])]
      · rw [List.find?_cons_of_neg _ (by simp [beq_iff_eq, hk']),
          List.find?_cons_of_neg _ (by simp [beq_iff_eq, hk'])]
        exact ih

theorem find?_map_fix_self (d : Dict) (k : String) (v : PyVal)
    (hany : d.any (fun p => p.1 == k) = true) :
    (d.map (fun p => if p.1 == k then (k, v) else p)).find? (fun p => p.1 == k) =
      some (k, v) := by
  induction d with
  | nil => simp at hany
  | cons a d ih =>
    simp only [List.map_cons]
    by_cases ha : a.1 = k
    · rw [if_pos (by simp [ha])]
      rw [List.find?_cons_of_pos _ (by simp)]
    · rw [if_neg (by simp [ha])]
      rw [List.find?_cons_of_neg _ (by simp [beq_iff_eq, ha])]
      have hfalse : (a.1 == k) = false := by simp [beq_iff_eq, ha]
      exact ih (by simpa [List.any_cons, hfalse] using hany)

theorem dictGet?_insert_ne (d : Dict) (k k' : String) (v : PyVal) (hne : k' ≠ k) :
    dictGet? (dictInsert d k v) k' = dictGet? d k' := by
  unfold dictGet? dictInsert
  split_ifs with hany
  · rw [find?_map_fix d k k' v hne]
  · rw [List.find?_append]
    have : List.find? (fun p => p.1 == k') [(k, v)] = none := by
      simp [beq_iff_eq]
      exact fun h => hne h.symm
    simp [this]

theorem dictGet?_insert_self (d : Dict) (k : String) (v : PyVal) :
    dictGet? (dictInsert d k v) k = some v := by
  unfold dictGet? dictInsert
  split_ifs with hany
  · rw [find?_map_fix_self d k v hany]
    rfl
  · rw [List.find?_append]
    have hnone : List.find? (fun p => p.1 == k) d = none := by
      rw [List.find?_eq_none]
      intro p hp hcontra
      exact hany (List.any_eq_true.mpr ⟨p, hp, hcontra⟩)
    simp [hnone]

theorem foldl_insert_absent (l : List (String × PyVal)) (k : String) :
    ∀ d : Dict, (∀ p ∈ l, p.1 ≠ k) →
      dictGet? (l.foldl (fun d p => dictInsert d p.1 p.2) d) k = dictGet? d k := by
  induction l with
  | nil => intro d _; rfl
  | cons p l ih =>
    intro d h
    simp only [List.foldl_cons]
    rw [ih (dictInsert d p.1 p.2) (fun q hq => h q (List.mem_cons_of_mem _ hq))]
    exact dictGet?_insert_ne d p.1 k p.2 (fun he => h p (List.mem_cons_self _ _) he.symm)

theorem foldl_insert_indep (l : List (String × PyVal)) (k : String) :
    ∀ d₁ d₂ : Dict, k ∈ l.map (fun p => p.1) →
      dictGet? (l.foldl (fun d p => dictInsert d p.1 p.2) d₁) k =
        dictGet? (l.foldl (fun d p => dictInsert d p.1 p.2) d₂) k := by
  induction l with
  | nil => intro d₁ d₂ h; simp at h
  | cons p l ih =>
    intro d₁ d₂ h
    simp only [List.foldl_cons]
    by_cases hk : k ∈ l.map (fun p => p.1)
    · exact ih (dictInsert d₁ p.1 p.2) (dictInsert d₂ p.1 p.2) hk
    · have hpk : p.1 = k := by
        simp only [List.map_cons, List.mem_cons] at h
        rcases h with h | h
        · exact h.symm
        · exact absurd h hk
      have habs : ∀ q ∈ l, q.1 ≠ k := by
        intro q hq he
        exact hk (List.mem_map.mpr ⟨q, hq, he⟩)
      rw [foldl_insert_absent l k _ habs, foldl_insert_absent l k _ habs, hpk,
        dictGet?_insert_self, dictGet?_insert_self]

end Snakeoil

namespace Snakeoil

/-! ### Claim theorems -/

/-- C1 counterexample: the handshake loop does not invoke restart after
exactly 5 timeouts.  After 5 consecutive timeouts (and still after 6)
no restart has been issued; the first restart happens on the 7th
timeout, and the budget immediately after that timeout is 4, not 5
(the reset to 5 inside the branch is followed by the shared
decrement). -/
theorem claim1_counterexample :
    (handshakeRun 5).restarts = 0 ∧ (handshakeRun 6).restarts = 0 ∧
    (handshakeRun 7).restarts = 1 ∧ (handshakeRun 7).n_fail = 4 := by
  decide

/-- C1 (amended): starting from the default budget n_fail = 5, the
setup_connection receive loop tolerates 6 consecutive timeouts without
invoking restart; the 7th consecutive timeout invokes restart, after
which n_fail is reset to 5 and immediately decremented to 4, so every
further restart occurs exactly 6 timeouts after the previous one. -/
theorem claim1_restart_cadence :
    (∀ k, k ≤ 6 → (handshakeRun k).restarts = 0) ∧
    handshakeRun 7 = ⟨4, 1⟩ ∧
    (∀ j : Nat, handshakeRun (7 + 6 * j) = ⟨4, 1 + j⟩) := by
  refine ⟨by decide, by decide, ?_⟩
  intro j
  induction j with
  | zero => decide
  | succ j ih =>
    have harith : 7 + 6 * (j + 1) = (7 + 6 * j) + 6 := by ring
    rw [harith]
    simp only [handshakeRun, ih]
    norm_num [handshakeTimeoutStep]
    omega

/-- C1 witness: the cadence theorem applied at concrete timeout
counts. -/
theorem claim1_restart_cadence_witness :
    (handshakeRun 5).restarts = 0 ∧ handshakeRun (7 + 6 * 2) = ⟨4, 1 + 2⟩ :=
  ⟨claim1_restart_cadence.1 5 (by decide), claim1_restart_cadence.2.2 2⟩

/-- C2 counterexample: decoding does not replace the previous snapshot.
After decoding the datagram (a 1)| and then the datagram (b 2)| (whose
only key is b), the state still carries the pair a maps-to 1 from the
first datagram: parse_server_str merges into the existing dictionary. -/
theorem claim2_counterexample :
    serverKeys "(b 2)|" = ["b"] ∧
    dictGet? (parse_server_str (parse_server_str [] "(a 1)|") "(b 2)|") "a" =
      some (PyVal.scalar (.num 1)) := by
  decide

/-- C2 (amended): parse_server_str performs a partial merge into the
prior state: a key named by the new datagram is overwritten with a
value determined by that datagram alone (independent of the prior
dictionary), while every key/value pair of the prior dictionary whose
key is absent from the datagram is retained unchanged. -/
theorem claim2_parse_merges (d : Dict) (s : String) (k : String) :
    (k ∉ serverKeys s → dictGet? (parse_server_str d s) k = dictGet? d k) ∧
    (k ∈ serverKeys s → ∀ d' : Dict,
      dictGet? (parse_server_str d s) k = dictGet? (parse_server_str d' s) k) := by
  constructor
  · intro hk
    unfold parse_server_str
    refine foldl_insert_absent (groupPairs s) k d ?_
    intro p hp he
    exact hk (List.mem_map.mpr ⟨p, hp, he⟩)
  · intro hk d'
    unfold parse_server_str
    exact foldl_insert_indep (groupPairs s) k d d' hk

/-- C2 witness: the merge theorem applied to a concrete carried-over
key. -/
theorem claim2_parse_merges_witness :
    dictGet? (parse_server_str [("a", PyVal.scalar (.num 1))] "(b 2)|") "a" =
      dictGet? [("a", PyVal.scalar (.num 1))] "a" :=
  (claim2_parse_merges [("a", PyVal.scalar (.num 1))] "(b 2)|" "a").1 (by decide)

/-- C3 counterexample: on a session whose socket has been closed by
shutdown, get_servers_input and respond_to_server return silently (the
noSocket outcome models Python's bare return statement, raising no
exception and touching nothing): there is no distinct SessionClosed
error in the code. -/
theorem claim3_counterexample :
    get_servers_input ⟨false, []⟩ [some "(angle 0.1)|"] = (⟨false, []⟩, RecvResult.noSocket) ∧
    respond_to_server ⟨false, []⟩ driverActionInit = (⟨false, []⟩, SendResult.noSocket) ∧
    RecvResult.noSocket.isRaise = false ∧
    SendResult.noSocket.isRaise = false := by
  decide

/-- C3 (amended): on every session whose socket is closed, receive and
send return immediately as silent no-ops: the state is unchanged, the
outcome is the plain noSocket return, and no exception is raised (so
the calls neither fail with a SessionClosed error, nor retry, nor
perform the operation). -/
theorem claim3_closed_session_noop (c : ClientState) (msgs : List (Option String))
    (r : DriverAction) (h : c.soOpen = false) :
    get_servers_input c msgs = (c, RecvResult.noSocket) ∧
    respond_to_server c r = (c, SendResult.noSocket) ∧
    RecvResult.noSocket.isRaise = false ∧
    SendResult.noSocket.isRaise = false := by
  refine ⟨?_, ?_, rfl, rfl⟩
  · simp [get_servers_input, h]
  · simp [respond_to_server, h]

/-- C3 witness: the no-op theorem applied to a concrete closed
session. -/
theorem claim3_closed_session_noop_witness :
    get_servers_input ⟨false, []⟩ [some "(speedX 3)|"] = (⟨false, []⟩, RecvResult.noSocket) ∧
    respond_to_server ⟨false, []⟩ driverActionInit = (⟨false, []⟩, SendResult.noSocket) ∧
    RecvResult.noSocket.isRaise = false ∧
    SendResult.noSocket.isRaise = false :=
  claim3_closed_session_noop ⟨false, []⟩ [some "(speedX 3)|"] driverActionInit rfl

/-- C4 counterexample: a shutdown datagram received while the state
holds no racePos entry does not close the transport and does not
produce a terminal Shutdown result: the report line raises KeyError
first, leaving the socket open. -/
theorem claim4_counterexample :
    get_servers_input ⟨true, []⟩ [some "***shutdown***"] = (⟨true, []⟩, RecvResult.keyError) ∧
    (get_servers_input ⟨true, []⟩ [some "***shutdown***"]).1.soOpen = true := by
  decide

/-- C4 (amended): for every datagram received in the connected state
that contains the shutdown marker and not the identification marker:
when the sensor state holds a numeric racePos entry (decoded from some
earlier datagram), the receive operation closes the transport and
returns the terminal shutdownRace result carrying it, and in
particular never a snapshot; when the state holds a racePos entry that
is not a number (a string token or a list), the integer conversion of
the report line raises TypeError before shutdown is invoked, leaving
the transport open; without a racePos entry it raises KeyError instead
(claim C10). -/
theorem claim4_shutdown_datagram (c : ClientState) (s : String)
    (rest : List (Option String)) (hopen : c.soOpen = true)
    (hid : pyIn "***identified***" s = false)
    (hsh : pyIn "***shutdown***" s = true) :
    (∀ q : ℚ, dictGet? c.S "racePos" = some (PyVal.scalar (.num q)) →
      get_servers_input c (some s :: rest) =
        ({ c with soOpen := false }, RecvResult.shutdownRace (PyVal.scalar (.num q))) ∧
      RecvResult.shutdownRace (PyVal.scalar (.num q)) ≠ RecvResult.snapshot) ∧
    (∀ v : PyVal, dictGet? c.S "racePos" = some v →
      (∀ q : ℚ, v ≠ PyVal.scalar (.num q)) →
      get_servers_input c (some s :: rest) = (c, RecvResult.typeError) ∧
      RecvResult.typeError.isRaise = true) := by
  constructor
  · intro q hrace
    refine ⟨?_, by simp⟩
    simp [get_servers_input, recvLoop, hopen, hid, hsh, hrace, shutdown]
  · intro v hrace hnonnum
    refine ⟨?_, rfl⟩
    cases v with
    | scalar w =>
      cases w with
      | num q => exact absurd rfl (hnonnum q)
      | str t => simp [get_servers_input, recvLoop, hopen, hid, hsh, hrace]
    | vlist xs => simp [get_servers_input, recvLoop, hopen, hid, hsh, hrace]

/-- C4 witness: the shutdown-datagram theorem applied to a concrete
connected session that has already decoded the numeric racePos 4. -/
theorem claim4_shutdown_datagram_witness :
    get_servers_input ⟨true, [("racePos", PyVal.scalar (.num 4))]⟩ [some "***shutdown***"] =
      (⟨false, [("racePos", PyVal.scalar (.num 4))]⟩, RecvResult.shutdownRace (PyVal.scalar (.num 4))) ∧
    RecvResult.shutdownRace (PyVal.scalar (.num 4)) ≠ RecvResult.snapshot :=
  (claim4_shutdown_datagram ⟨true, [("racePos", PyVal.scalar (.num 4))]⟩ "***shutdown***"
    [] rfl (by decide) (by decide)).1 4 (by decide)

/-- C10: on a shutdown datagram, the receive operation unconditionally
reads racePos from the sensor state; when no previously decoded
datagram supplied it, the call ends in the raised KeyError outcome
(state unchanged, transport still open), not in a terminal result. -/
theorem claim10_missing_racePos (c : ClientState) (s : String)
    (rest : List (Option String)) (hopen : c.soOpen = true)
    (hid : pyIn "***identified***" s = false)
    (hsh : pyIn "***shutdown***" s = true)
    (hrace : dictGet? c.S "racePos" = none) :
    get_servers_input c (some s :: rest) = (c, RecvResult.keyError) ∧
    RecvResult.keyError.isRaise = true := by
  refine ⟨?_, rfl⟩
  simp [get_servers_input, recvLoop, hopen, hid, hsh, hrace]

/-- C10 witness: the KeyError theorem applied to a fresh connected
session that has decoded no telemetry. -/
theorem claim10_missing_racePos_witness :
    get_servers_input ⟨true, []⟩ [some "***shutdown***"] = (⟨true, []⟩, RecvResult.keyError) ∧
    RecvResult.keyError.isRaise = true :=
  claim10_missing_racePos ⟨true, []⟩ "***shutdown***" [] rfl (by decide) (by decide) (by decide)

end Snakeoil

namespace Snakeoil

/-- C5: after a successful clip_to_limits, steer lies in [-1, 1], accel,
brake and clutch lie in [0, 1], gear is one of {-1, 0, 1, 2, 3, 4, 5, 6},
meta is 0 or 1, and focus is either a list of values each within
[-180, 180] or has been reset to the scalar 0. -/
theorem claim5_clip_bounds (a b : DriverAction) (h : clip_to_limits a = some b) :
    (-1 ≤ b.steer ∧ b.steer ≤ 1) ∧ (0 ≤ b.accel ∧ b.accel ≤ 1) ∧
    (0 ≤ b.brake ∧ b.brake ≤ 1) ∧ (0 ≤ b.clutch ∧ b.clutch ≤ 1) ∧
    b.gear ∈ gearVals ∧ (b.meta = 0 ∨ b.meta = 1) ∧
    ((∃ xs, b.focus = Focus.flist xs ∧ ∀ v ∈ xs, -180 ≤ v ∧ v ≤ 180) ∨
      b.focus = Focus.scalar 0) := by
  obtain ⟨aa, ab, ac, ag, as', af, am⟩ := a
  have hgear : (if ag ∈ gearVals then ag else 0) ∈ gearVals := by
    split_ifs with hg
    · exact hg
    · simp [gearVals]
  have hmeta : (if am ∈ metaVals then am else 0) = 0 ∨ (if am ∈ metaVals then am else 0) = 1 := by
    split_ifs with hm
    · simpa [metaVals] using hm
    · left; rfl
  cases af with
  | scalar v =>
    simp only [clip_to_limits, Option.some.injEq] at h
    subst h
    exact ⟨clip_le _ _ _ (by norm_num), clip_le _ _ _ (by norm_num),
      clip_le _ _ _ (by norm_num), clip_le _ _ _ (by norm_num),
      hgear, hmeta, Or.inr rfl⟩
  | flist xs =>
    cases xs with
    | nil => simp [clip_to_limits] at h
    | cons x rest =>
      simp only [clip_to_limits, Option.some.injEq] at h
      subst h
      refine ⟨clip_le _ _ _ (by norm_num), clip_le _ _ _ (by norm_num),
        clip_le _ _ _ (by norm_num), clip_le _ _ _ (by norm_num),
        hgear, hmeta, ?_⟩
      dsimp only
      split_ifs with hcond
      · exact Or.inr rfl
      · push_neg at hcond
        refine Or.inl ⟨x :: rest, rfl, ?_⟩
        intro v hv
        exact ⟨le_trans hcond.1 (foldl_min_le rest x v hv),
          le_trans (le_foldl_max rest x v hv) hcond.2⟩

/-- C5 witness: the bounds theorem applied to the specification's
out-of-range test vector (steer 2.5, brake -1, gear 9, meta 5). -/
theorem claim5_clip_bounds_witness :
    clip_to_limits specClampInput = some specClampOutput ∧
    ((-1 ≤ specClampOutput.steer ∧ specClampOutput.steer ≤ 1) ∧
      (0 ≤ specClampOutput.accel ∧ specClampOutput.accel ≤ 1) ∧
      (0 ≤ specClampOutput.brake ∧ specClampOutput.brake ≤ 1) ∧
      (0 ≤ specClampOutput.clutch ∧ specClampOutput.clutch ≤ 1) ∧
      specClampOutput.gear ∈ gearVals ∧
      (specClampOutput.meta = 0 ∨ specClampOutput.meta = 1) ∧
      ((∃ xs, specClampOutput.focus = Focus.flist xs ∧ ∀ v ∈ xs, -180 ≤ v ∧ v ≤ 180) ∨
        specClampOutput.focus = Focus.scalar 0)) :=
  ⟨by decide, claim5_clip_bounds specClampInput specClampOutput (by decide)⟩

/-- C6: clip_to_limits is idempotent: whenever it succeeds, applying it
again to the clamped command returns that command unchanged. -/
theorem claim6_clip_idem (a b : DriverAction) (h : clip_to_limits a = some b) :
    clip_to_limits b = some b := by
  obtain ⟨aa, ab, ac, ag, as', af, am⟩ := a
  have hsteer : ∀ v : ℚ, clip (clip v (-1) 1) (-1) 1 = clip v (-1) 1 :=
    fun v => clip_idem v (-1) 1 (by norm_num)
  have hunit : ∀ v : ℚ, clip (clip v 0 1) 0 1 = clip v 0 1 :=
    fun v => clip_idem v 0 1 (by norm_num)
  have hgear : (if (if ag ∈ gearVals then ag else 0) ∈ gearVals then
      (if ag ∈ gearVals then ag else 0) else 0) = (if ag ∈ gearVals then ag else 0) := by
    by_cases hg : ag ∈ gearVals
    · simp only [if_pos hg]
    · simp only [if_neg hg, ite_self]
  have hmeta : (if (if am ∈ metaVals then am else 0) ∈ metaVals then
      (if am ∈ metaVals then am else 0) else 0) = (if am ∈ metaVals then am else 0) := by
    by_cases hm : am ∈ metaVals
    · simp only [if_pos hm]
    · simp only [if_neg hm, ite_self]
  cases af with
  | scalar v =>
    simp only [clip_to_limits, Option.some.injEq] at h
    subst h
    simp only [clip_to_limits, hsteer, hunit, hgear, hmeta]
  | flist xs =>
    cases xs with
    | nil => simp [clip_to_limits] at h
    | cons x rest =>
      simp only [clip_to_limits, Option.some.injEq] at h
      subst h
      by_cases hcond : rest.foldl min x < -180 ∨ rest.foldl max x > 180
      · simp only [if_pos hcond]
        simp only [clip_to_limits, hsteer, hunit, hgear, hmeta]
      · simp only [if_neg hcond]
        simp only [clip_to_limits, hsteer, hunit, hgear, hmeta, if_neg hcond]

/-- C6 witness: the idempotence theorem applied to the specification's
test vector. -/
theorem claim6_clip_idem_witness :
    clip_to_limits specClampOutput = some specClampOutput :=
  claim6_clip_idem specClampInput specClampOutput (by decide)

/-- C7: decoding the datagram (angle 0.1)(speedX 50.0)(track 1 2 3)
yields angle maps-to 0.1 and speedX maps-to 50 as scalars and track
maps-to the ordered sequence [1, 2, 3]; in general a group with exactly
one value token collapses to a scalar and a group with two or more
value tokens stays an ordered sequence. -/
theorem claim7_decode :
    parse_server_str [] "(angle 0.1)(speedX 50.0)(track 1 2 3)" =
      [("angle", PyVal.scalar (.num 0.1)),
       ("speedX", PyVal.scalar (.num 50)),
       ("track", PyVal.vlist [.num 1, .num 2, .num 3])] ∧
    (∀ t : List Char, destringify [t] = PyVal.scalar (destrTok t)) ∧
    (∀ ts : List (List Char), 2 ≤ ts.length →
      destringify ts = PyVal.vlist (ts.map destrTok)) := by
  refine ⟨?_, fun t => rfl, ?_⟩
  · have h01 : (0.1 : ℚ) = mkRat 1 10 := by rw [Rat.mkRat_eq_div]; norm_num
    rw [h01]
    decide
  · intro ts hts
    cases ts with
    | nil => simp at hts
    | cons t1 ts' =>
      cases ts' with
      | nil => simp at hts
      | cons t2 tr => rfl

/-- C7 witness: the sequence clause applied to a concrete two-token
group. -/
theorem claim7_decode_witness :
    destringify [['1'], ['2']] = PyVal.vlist [destrTok ['1'], destrTok ['2']] :=
  claim7_decode.2.2 [['1'], ['2']] (by decide)

/-- C8: whenever __repr__ succeeds, its output is exactly the seven
groups (key value...) concatenated with no separators, and every field
rendered through the '%.3f' format carries exactly three digits after
the decimal point (all scalar fields, including a focus that was reset
to the scalar 0). -/
theorem claim8_encode_format (a : DriverAction) (out : String)
    (h : driver_repr a = some out) :
    ∃ b, clip_to_limits a = some b ∧
      out =
        wireGroup "accel" (format3 b.accel) ++ wireGroup "brake" (format3 b.brake) ++
        wireGroup "clutch" (format3 b.clutch) ++ wireGroup "gear" (format3 b.gear) ++
        wireGroup "steer" (format3 b.steer) ++ wireGroup "focus" (focusStr b.focus) ++
        wireGroup "meta" (format3 b.meta) ∧
      threeDecimals (format3 b.accel) ∧ threeDecimals (format3 b.brake) ∧
      threeDecimals (format3 b.clutch) ∧ threeDecimals (format3 b.gear) ∧
      threeDecimals (format3 b.steer) ∧ threeDecimals (format3 b.meta) ∧
      (∀ v, b.focus = Focus.scalar v → threeDecimals (format3 v)) := by
  unfold driver_repr at h
  cases hc : clip_to_limits a with
  | none => rw [hc] at h; simp at h
  | some b =>
    rw [hc] at h
    simp only [Option.map_some', Option.some.injEq] at h
    refine ⟨b, rfl, ?_, format3_threeDecimals _, format3_threeDecimals _,
      format3_threeDecimals _, format3_threeDecimals _, format3_threeDecimals _,
      format3_threeDecimals _, fun v _ => format3_threeDecimals v⟩
    rw [← h]
    rfl

/-- C8 witness: the format theorem applied to the default command,
whose encoding is computed in full. -/
theorem claim8_encode_format_witness :
    driver_repr driverActionInit =
      some "(accel 0.200)(brake 0.000)(clutch 0.000)(gear 1.000)(steer 0.000)(focus -90 -45 0 45 90)(meta 0.000)" ∧
    (∃ b, clip_to_limits driverActionInit = some b ∧
      "(accel 0.200)(brake 0.000)(clutch 0.000)(gear 1.000)(steer 0.000)(focus -90 -45 0 45 90)(meta 0.000)" =
        wireGroup "accel" (format3 b.accel) ++ wireGroup "brake" (format3 b.brake) ++
        wireGroup "clutch" (format3 b.clutch) ++ wireGroup "gear" (format3 b.gear) ++
        wireGroup "steer" (format3 b.steer) ++ wireGroup "focus" (focusStr b.focus) ++
        wireGroup "meta" (format3 b.meta) ∧
      threeDecimals (format3 b.accel) ∧ threeDecimals (format3 b.brake) ∧
      threeDecimals (format3 b.clutch) ∧ threeDecimals (format3 b.gear) ∧
      threeDecimals (format3 b.steer) ∧ threeDecimals (format3 b.meta) ∧
      (∀ v, b.focus = Focus.scalar v → threeDecimals (format3 v))) :=
  ⟨by decide, claim8_encode_format driverActionInit
    "(accel 0.200)(brake 0.000)(clutch 0.000)(gear 1.000)(steer 0.000)(focus -90 -45 0 45 90)(meta 0.000)"
    (by decide)⟩

/-- C9: clip_to_limits is partial precisely at an empty focus list (the
min of an empty sequence raises ValueError), and total on every command
whose focus is a non-list value or a non-empty list; __repr__, which
invokes it, fails on the same input. -/
theorem claim9_clamp_partial :
    (∀ a : DriverAction, clip_to_limits a = none ↔ a.focus = Focus.flist []) ∧
    clip_to_limits { driverActionInit with focus := Focus.flist [] } = none ∧
    driver_repr { driverActionInit with focus := Focus.flist [] } = none := by
  refine ⟨?_, by decide, by decide⟩
  intro a
  obtain ⟨aa, ab, ac, ag, as', af, am⟩ := a
  cases af with
  | scalar v => simp [clip_to_limits]
  | flist xs =>
    cases xs with
    | nil => simp [clip_to_limits]
    | cons x rest => simp [clip_to_limits]

end Snakeoil
